import Mathlib

/-!
Verification of `srt_to_gpx.py` (endolith/srt-to-gpx).

The file shallowly embeds the program's pipeline:

* `convert_to_iso8601` — the timestamp normalizer, modelling
  `datetime.strptime(s, "%b %d, %Y %I:%M:%S %p")` followed by
  `strftime("%Y-%m-%dT%H:%M:%SZ")`.  The `strptime` model follows CPython's
  `_strptime` compiled regex: `%b` matches a three-letter month abbreviation
  case-insensitively, `%d` matches `3[01]|[12]\d|0[1-9]|[1-9]| [1-9]`,
  `%Y` exactly four digits, `%I` `1[0-2]|0[1-9]|[1-9]`, `%M` `[0-5]\d|\d`,
  `%S` `6[0-1]|[0-5]\d|\d`, `%p` AM/PM case-insensitively, whitespace in the
  format matches one or more whitespace characters, and the whole string must
  be consumed.  The `datetime` constructor's range checks (calendar-valid day,
  year 1..9999, second ≤ 59) are modelled by `validDt`.
* `parse_srt` — the block extractor / location decoder, over a list of lines.
  Python floats are modelled as exact decimals (`ℚ`); the model of `float(s)`
  accepts optional sign and `digits[.digits]` forms with surrounding
  whitespace (exponent, inf and nan forms are outside the model, no claim
  concerns them).  An escaping `IndexError` (the `lines[i+1]`/`lines[i+2]`
  accesses sit outside the `try`) is modelled as `Except.error ()`.
* `generate_gpx` / `validate` — the serializer and round-trip validator over a
  structural `Element` tree (the byte-level XML write/parse round trip of
  `ElementTree` is treated as the identity on this structure, and namespaced
  lookups `ns:tag` are modelled as plain-tag lookups, consistently on both
  sides).  The numeric rendering `str(float)` and re-parsing `float(str)` are
  abstracted as a `render`/`parse` pair, since CPython guarantees
  `float(str(x)) == x`; concrete instances are used for witnesses.
* output naming from `main`: `os.path.basename(p).replace(".srt", ".gpx")`
  joined to the output directory.
-/

namespace SrtToGpx

/-! ## Characters and digit rendering -/

/-- The character for a decimal digit `n ≤ 9`. -/
def digitChar (n : Nat) : Char := Char.ofNat (48 + n)

/-- Numeric value of a digit character. -/
def digitVal (c : Char) : Nat := c.toNat - 48

/-- Render a number below 100 without padding (as Python's `%-d` style input
text, e.g. the day `4` in `Jul 4, 2024`). -/
def natChars (n : Nat) : List Char :=
  if n < 10 then [digitChar n] else [digitChar (n / 10), digitChar (n % 10)]

/-- Render a number below 100 as exactly two digits (zero-padded). -/
def pad2 (n : Nat) : List Char := [digitChar (n / 10), digitChar (n % 10)]

/-- Render a number below 10000 as exactly four digits (zero-padded). -/
def pad4 (n : Nat) : List Char :=
  [digitChar (n / 1000), digitChar (n / 100 % 10), digitChar (n / 10 % 10), digitChar (n % 10)]

/-! ## The strptime model -/

/-- English month abbreviations used by `%b` (C locale). -/
def monthAbbrev : Nat → String
  | 1 => "Jan" | 2 => "Feb" | 3 => "Mar" | 4 => "Apr" | 5 => "May" | 6 => "Jun"
  | 7 => "Jul" | 8 => "Aug" | 9 => "Sep" | 10 => "Oct" | 11 => "Nov" | 12 => "Dec"
  | _ => ""

/-- Case-insensitive literal match (the `_strptime` regex is compiled with
`re.IGNORECASE`); returns the rest of the input on success. -/
def matchCI : List Char → List Char → Option (List Char)
  | [], cs => some cs
  | _ :: _, [] => none
  | p :: ps, c :: cs => if p.toLower = c.toLower then matchCI ps cs else none

/-- Try to match month number `m`'s abbreviation. -/
def tryMonth (m : Nat) (cs : List Char) : Option (Nat × List Char) :=
  (matchCI (monthAbbrev m).data cs).map (fun rest => (m, rest))

/-- `%b`: the twelve month abbreviations, case-insensitively. -/
def parseMonthFrom (cs : List Char) : Option (Nat × List Char) :=
  tryMonth 1 cs <|> tryMonth 2 cs <|> tryMonth 3 cs <|> tryMonth 4 cs <|>
  tryMonth 5 cs <|> tryMonth 6 cs <|> tryMonth 7 cs <|> tryMonth 8 cs <|>
  tryMonth 9 cs <|> tryMonth 10 cs <|> tryMonth 11 cs <|> tryMonth 12 cs

/-- `%d`: `3[01]|[12]\d|0[1-9]|[1-9]| [1-9]`. -/
def parseDayFrom : List Char → Option (Nat × List Char)
  | c1 :: c2 :: rest =>
    if c1 = '3' ∧ (c2 = '0' ∨ c2 = '1') then some (30 + digitVal c2, rest)
    else if (c1 = '1' ∨ c1 = '2') ∧ c2.isDigit then some (10 * digitVal c1 + digitVal c2, rest)
    else if c1 = '0' ∧ ('1' ≤ c2 ∧ c2 ≤ '9') then some (digitVal c2, rest)
    else if '1' ≤ c1 ∧ c1 ≤ '9' then some (digitVal c1, c2 :: rest)
    else if c1 = ' ' ∧ ('1' ≤ c2 ∧ c2 ≤ '9') then some (digitVal c2, rest)
    else none
  | [c1] => if '1' ≤ c1 ∧ c1 ≤ '9' then some (digitVal c1, []) else none
  | [] => none

/-- `%Y`: exactly four digits. -/
def parseYearFrom : List Char → Option (Nat × List Char)
  | c1 :: c2 :: c3 :: c4 :: rest =>
    if c1.isDigit ∧ c2.isDigit ∧ c3.isDigit ∧ c4.isDigit then
      some (1000 * digitVal c1 + 100 * digitVal c2 + 10 * digitVal c3 + digitVal c4, rest)
    else none
  | _ => none

/-- `%I`: `1[0-2]|0[1-9]|[1-9]`. -/
def parseHourFrom : List Char → Option (Nat × List Char)
  | c1 :: c2 :: rest =>
    if c1 = '1' ∧ ('0' ≤ c2 ∧ c2 ≤ '2') then some (10 + digitVal c2, rest)
    else if c1 = '0' ∧ ('1' ≤ c2 ∧ c2 ≤ '9') then some (digitVal c2, rest)
    else if '1' ≤ c1 ∧ c1 ≤ '9' then some (digitVal c1, c2 :: rest)
    else none
  | [c1] => if '1' ≤ c1 ∧ c1 ≤ '9' then some (digitVal c1, []) else none
  | [] => none

/-- `%M`: `[0-5]\d|\d`. -/
def parseMinFrom : List Char → Option (Nat × List Char)
  | c1 :: c2 :: rest =>
    if ('0' ≤ c1 ∧ c1 ≤ '5') ∧ c2.isDigit then some (10 * digitVal c1 + digitVal c2, rest)
    else if c1.isDigit then some (digitVal c1, c2 :: rest)
    else none
  | [c1] => if c1.isDigit then some (digitVal c1, []) else none
  | [] => none

/-- `%S`: `6[0-1]|[0-5]\d|\d`. -/
def parseSecFrom : List Char → Option (Nat × List Char)
  | c1 :: c2 :: rest =>
    if c1 = '6' ∧ (c2 = '0' ∨ c2 = '1') then some (60 + digitVal c2, rest)
    else if ('0' ≤ c1 ∧ c1 ≤ '5') ∧ c2.isDigit then some (10 * digitVal c1 + digitVal c2, rest)
    else if c1.isDigit then some (digitVal c1, c2 :: rest)
    else none
  | [c1] => if c1.isDigit then some (digitVal c1, []) else none
  | [] => none

/-- `%p`: `AM|PM`, case-insensitively; `true` means PM. -/
def parseAmPm : List Char → Option (Bool × List Char)
  | c1 :: c2 :: rest =>
    if c2.toLower = 'm' then
      if c1.toLower = 'a' then some (false, rest)
      else if c1.toLower = 'p' then some (true, rest)
      else none
    else none
  | _ => none

/-- Consume remaining whitespace greedily. -/
def skipWs : List Char → List Char
  | c :: cs => if c.isWhitespace then skipWs cs else c :: cs
  | [] => []

/-- `\s+`: one or more whitespace characters. -/
def wsPlus : List Char → Option (List Char)
  | c :: cs => if c.isWhitespace then some (skipWs cs) else none
  | [] => none

/-- Expect a literal character. -/
def expectC (c : Char) : List Char → Option (List Char)
  | x :: xs => if x = c then some xs else none
  | [] => none

/-- The parsed-and-converted timestamp fields (`hour` is already on the
24-hour clock, as `_strptime` returns it). -/
structure Dt where
  year : Nat
  month : Nat
  day : Nat
  hour : Nat
  minute : Nat
  second : Nat
deriving DecidableEq, Repr

/-- `_strptime`'s 12-hour to 24-hour conversion for `%I` with `%p`. -/
def hour24 (h : Nat) (pm : Bool) : Nat :=
  if pm then (if h = 12 then 12 else h + 12) else (if h = 12 then 0 else h)

/-- `datetime.strptime(s, "%b %d, %Y %I:%M:%S %p")` up to (but not including)
the `datetime` constructor's range validation.  The whole input must be
consumed (`_strptime` rejects unconverted trailing data). -/
def strptimeUS (cs : List Char) : Option Dt := do
  let (mo, cs) ← parseMonthFrom cs
  let cs ← wsPlus cs
  let (d, cs) ← parseDayFrom cs
  let cs ← expectC ',' cs
  let cs ← wsPlus cs
  let (y, cs) ← parseYearFrom cs
  let cs ← wsPlus cs
  let (h, cs) ← parseHourFrom cs
  let cs ← expectC ':' cs
  let (mi, cs) ← parseMinFrom cs
  let cs ← expectC ':' cs
  let (s, cs) ← parseSecFrom cs
  let cs ← wsPlus cs
  let (pm, cs) ← parseAmPm cs
  if cs = [] then some ⟨y, mo, d, hour24 h pm, mi, s⟩ else none

/-- Gregorian leap year, as `calendar`/`datetime` compute it. -/
def isLeap (y : Nat) : Bool := y % 4 = 0 ∧ (y % 100 ≠ 0 ∨ y % 400 = 0)

/-- Days in a month (month assumed in 1..12). -/
def daysInMonth (y m : Nat) : Nat :=
  if m = 2 then (if isLeap y then 29 else 28)
  else if m = 4 ∨ m = 6 ∨ m = 9 ∨ m = 11 then 30
  else 31

/-- The `datetime(year, month, day, hour, minute, second)` constructor's
range checks (`MINYEAR = 1`, `MAXYEAR = 9999`, calendar-valid day,
`second ≤ 59`). -/
def validDt (t : Dt) : Bool :=
  1 ≤ t.year ∧ t.year ≤ 9999 ∧ 1 ≤ t.month ∧ t.month ≤ 12 ∧
  1 ≤ t.day ∧ t.day ≤ daysInMonth t.year t.month ∧
  t.hour ≤ 23 ∧ t.minute ≤ 59 ∧ t.second ≤ 59

/-- `strftime("%Y-%m-%dT%H:%M:%SZ")` on a valid datetime. -/
def isoChars (t : Dt) : List Char :=
  pad4 t.year ++ '-' :: pad2 t.month ++ '-' :: pad2 t.day ++
  'T' :: pad2 t.hour ++ ':' :: pad2 t.minute ++ ':' :: pad2 t.second ++ ['Z']

/-- String form of `isoChars`. -/
def isoString (t : Dt) : String := ⟨isoChars t⟩

/-- `convert_to_iso8601` from `srt_to_gpx.py`: `strptime` then `strftime`;
any `ValueError` (pattern mismatch or constructor range failure) is re-raised
as `ValueError(f"Invalid time format: {date_str}")`. -/
def convert_to_iso8601 (date_str : String) : Except String String :=
  match strptimeUS date_str.data with
  | some t =>
    if validDt t then .ok (isoString t)
    else .error ("Invalid time format: " ++ date_str)
  | none => .error ("Invalid time format: " ++ date_str)

/-- Boolean success test for `Except`. -/
def isOkE {ε α : Type} : Except ε α → Bool
  | .ok _ => true
  | .error _ => false

/-! ## The spec-side pattern

The specification describes the accepted inputs by the pattern
`<Month abbreviation> <day>, <4-digit year> <hour>:<minute>:<second> <AM|PM>`
with example `Jul 4, 2024 6:13:17 PM`.  `mkInput` renders an instance of this
pattern in its canonical form (day and hour unpadded, minute and second
two-digit, single spaces); the pattern's language is the image of `mkInput`
over in-range fields. -/

/-- Canonical instance of the spec's timestamp pattern. -/
def mkInputChars (m d y h mi s : Nat) (pm : Bool) : List Char :=
  (monthAbbrev m).data ++ (' ' :: (natChars d ++ (',' :: (' ' :: (pad4 y ++
  (' ' :: (natChars h ++ (':' :: (pad2 mi ++ (':' :: (pad2 s ++
  (' ' :: (if pm then ['P', 'M'] else ['A', 'M'])))))))))))))

/-- String form of `mkInputChars`. -/
def mkInput (m d y h mi s : Nat) (pm : Bool) : String :=
  ⟨mkInputChars m d y h mi s pm⟩

/-! ## The block extractor and location decoder (`parse_srt`) -/

/-- Python's `str.strip()` (both-ends whitespace strip). -/
def stripChars (l : List Char) : List Char :=
  ((l.dropWhile Char.isWhitespace).reverse.dropWhile Char.isWhitespace).reverse

/-- One extracted point (the dict `{"time", "lat", "lon", "elevation"}`).
`F` is the model of Python's `float`. -/
structure GpsRecord (F : Type) where
  time : String
  lat : F
  lon : F
  elevation : F
deriving DecidableEq, Repr

/-- Decimal value of a digit list. -/
def digitsToNat (l : List Char) : Nat := l.foldl (fun a c => 10 * a + digitVal c) 0

/-- The unsigned part of the Python `float(s)` model: `digits`, `digits.`,
`digits.digits` or `.digits`; everything else fails. -/
def pyFloatVal (sgn : ℚ) (t : List Char) : Option ℚ :=
  match t.dropWhile Char.isDigit with
  | [] =>
    if (t.takeWhile Char.isDigit).isEmpty then none
    else some (sgn * (digitsToNat (t.takeWhile Char.isDigit) : ℚ))
  | '.' :: fp =>
    if ((t.takeWhile Char.isDigit).isEmpty && fp.isEmpty) || !(fp.all Char.isDigit) then none
    else some (sgn * ((digitsToNat (t.takeWhile Char.isDigit) : ℚ) +
      (digitsToNat fp : ℚ) / (10 : ℚ) ^ fp.length))
  | _ => none

/-- Model of Python `float(s)` on the decimal forms the program meets:
surrounding whitespace is ignored, then an optional sign and
`digits`, `digits.`, `digits.digits` or `.digits`.  (Exponent, `inf` and
`nan` spellings are outside the model.)  Values are exact decimals in `ℚ`. -/
def pyFloatChars (l : List Char) : Option ℚ :=
  match stripChars l with
  | '+' :: r => pyFloatVal 1 r
  | '-' :: r => pyFloatVal (-1) r
  | t => pyFloatVal 1 t

/-- `pyFloatChars` on a `String`. -/
def pyFloatStr (s : String) : Option ℚ := pyFloatChars s.data

/-- Python's `str.split(",")`. -/
def splitComma : List Char → List (List Char)
  | [] => [[]]
  | c :: cs =>
    let r := splitComma cs
    if c = ',' then [] :: r
    else (c :: r.headD []) :: r.tail

/-- The elevation field preparation: `field.strip().replace("m", "")` —
note Python's `replace` removes every occurrence of `"m"`, not only a
trailing unit suffix. -/
def elevClean (l : List Char) : List Char :=
  (stripChars l).filter (fun c => c != 'm')

/-- `','  in s`. -/
def containsComma (l : List Char) : Bool := l.any (fun c => c == ',')

/-- `'-->' in s`: the substring test that identifies a timing line. -/
def containsArrow : List Char → Bool
  | [] => false
  | c :: cs => ['-', '-', '>'].isPrefixOf (c :: cs) || containsArrow cs

/-- The per-block body of `parse_srt`'s loop (inside the `try`): decode one
caption block's location line, given the (already stripped) timestamp and
location text.  `none` covers the no-comma skip, a `float` parse failure
(`ValueError`) and a missing third field (`IndexError` on `[2]`) — each of
which the code catches and counts as skipped. -/
def decodeBlock (tChars locChars : List Char) : Option (GpsRecord ℚ) :=
  if containsComma locChars then
    match splitComma locChars with
    | f0 :: f1 :: rest =>
      match pyFloatChars f0, pyFloatChars f1 with
      | some la, some lo =>
        match rest with
        | f2 :: _ =>
          match pyFloatChars (elevClean f2) with
          | some el => some ⟨⟨tChars⟩, la, lo, el⟩
          | none => none
        | [] => none
      | _, _ => none
    | _ => none
  else none

/-- The scan `for i in range(len(lines))`, expressed on the suffix of `lines`
starting at `i` (so `lines[i+1]`, `lines[i+2]` are the next two elements).
When a line contains `'-->'` but fewer than two lines follow, the code's
`lines[i + 1]` / `lines[i + 2]` accesses raise `IndexError` *outside* the
`try`, so the error escapes `parse_srt`: modelled as `.error ()`. -/
def parseGo : List String → List (GpsRecord ℚ) → Nat →
    Except Unit (List (GpsRecord ℚ) × Nat)
  | [], entries, skipped => .ok (entries, skipped)
  | a :: rest, entries, skipped =>
    if containsArrow a.data then
      match rest with
      | t :: p :: _ =>
        match decodeBlock (stripChars t.data) (stripChars p.data) with
        | some e => parseGo rest (entries ++ [e]) skipped
        | none => parseGo rest entries (skipped + 1)
      | _ => .error ()
    else parseGo rest entries skipped

/-- `parse_srt` on the file's line list: returns the valid entries and the
count of skipped blocks, or the escaping `IndexError`. -/
def parse_srt (lines : List String) : Except Unit (List (GpsRecord ℚ) × Nat) :=
  parseGo lines [] 0

/-- Spec-side reformulation of the block scan: every line containing `'-->'`
— with no check of any preceding index line — starts a block whose timestamp
is the next line and whose payload is the line after that. -/
def specBlocks : List String → List (String × String)
  | [] => []
  | a :: rest =>
    (if containsArrow a.data then
      match rest with
      | t :: p :: _ => [(t, p)]
      | _ => []
    else []) ++ specBlocks rest

/-! ## The XML element tree, serializer and validator -/

/-- A structural XML element (tag, attributes, text, children), the model of
`xml.etree.ElementTree` nodes. -/
inductive Element where
  | mk (tag : String) (attrs : List (String × String)) (text : Option String)
      (children : List Element)

instance : Inhabited Element := ⟨.mk "" [] none []⟩

/-- Tag of an element. -/
def Element.tag : Element → String
  | .mk t _ _ _ => t

/-- Attribute list of an element. -/
def Element.attrs : Element → List (String × String)
  | .mk _ a _ _ => a

/-- Text content of an element. -/
def Element.text : Element → Option String
  | .mk _ _ x _ => x

/-- Children of an element. -/
def Element.children : Element → List Element
  | .mk _ _ _ ch => ch

/-- `elem.get(key)`: attribute lookup. -/
def Element.attr (e : Element) (k : String) : Option String :=
  e.attrs.lookup k

/-- `elem.find("ns:tag")`: first direct child with the given tag. -/
def findChild (t : String) (e : Element) : Option Element :=
  e.children.find? (fun c => c.tag == t)

mutual

/-- All elements with the given tag in this subtree (self included), in
document order. -/
def findAllFrom (t : String) : Element → List Element
  | .mk tg a x ch =>
    (if tg = t then [Element.mk tg a x ch] else []) ++ findAllFromList t ch

/-- `findAllFrom` over a forest. -/
def findAllFromList (t : String) : List Element → List Element
  | [] => []
  | e :: es => findAllFrom t e ++ findAllFromList t es

end

/-- `root.findall(".//ns:tag")`: all descendants of the root with the given
tag, in document order. -/
def findall (t : String) (root : Element) : List Element :=
  findAllFromList t root.children

/-- The `trkpt` element built for one record in `generate_gpx`'s loop:
`lat`/`lon` attributes from `str(...)` (the abstract `render`), an `ele`
child and a `time` child with the normalized time. -/
def trkptEl {F : Type} (render : F → String) (r : GpsRecord F) (iso : String) : Element :=
  .mk "trkpt" [("lat", render r.lat), ("lon", render r.lon)] none
    [.mk "ele" [] (some (render r.elevation)) [],
     .mk "time" [] (some iso) []]

/-- The serializer's loop over the records: the first failing
`convert_to_iso8601` aborts the whole serialization. -/
def buildPts {F : Type} (render : F → String) : List (GpsRecord F) → Except String (List Element)
  | [] => .ok []
  | r :: rs =>
    match convert_to_iso8601 r.time with
    | .error e => .error e
    | .ok iso =>
      match buildPts render rs with
      | .error e => .error e
      | .ok pts => .ok (trkptEl render r iso :: pts)

/-- The static `metadata` block (its `time` text is `datetime.utcnow()`,
passed in as `now`). -/
def metadataEl (now : String) : Element :=
  .mk "metadata" [] none
    [.mk "name" [] (some "SRT to GPX Converter") [],
     .mk "desc" [] (some "Converted using OpenCamera SRT to GPX Script") [],
     .mk "author" [] (some "OpenCamera Script") [],
     .mk "time" [] (some now) []]

/-- The full document: root `gpx` with version/creator/namespace attributes,
the metadata block, and one `trk` containing one `trkseg` containing the
track points. -/
def gpxRoot (now : String) (pts : List Element) : Element :=
  .mk "gpx"
    [("version", "1.1"), ("creator", "SRTtoGPX"),
     ("xmlns", "http://www.topografix.com/GPX/1/1")] none
    [metadataEl now,
     .mk "trk" [] none [.mk "trkseg" [] none pts]]

/-- `generate_gpx(data, output_file)`: builds the document (the file write is
the identity on the structural tree). -/
def generate_gpx {F : Type} (render : F → String) (now : String)
    (data : List (GpsRecord F)) : Except String Element :=
  match buildPts render data with
  | .error e => .error e
  | .ok pts => .ok (gpxRoot now pts)

/-- Errors `validate_conversion` can raise: `typeErr` models `float(None)`
(a `TypeError`), `valueErr` a `float(s)` parse failure, `attrErr` an
`AttributeError` from `.text` on a missing child, `timeFormat` the
`ValueError` re-raised by `convert_to_iso8601`, and `mismatch` an
`AssertionError` with the assert's message. -/
inductive VErr where
  | typeErr
  | valueErr
  | attrErr
  | timeFormat (msg : String)
  | mismatch (msg : String)
deriving DecidableEq, Repr

/-- The per-point loop of `validate_conversion`: reads `lat`, `lon`, `ele`,
`time` from the track point, then asserts coordinates, elevation and time in
the code's order. -/
def checkPts {F : Type} [DecidableEq F] (parse : String → Option F) :
    List (GpsRecord F × Element) → Except VErr Unit
  | [] => .ok ()
  | (r, pt) :: rest =>
    match pt.attr "lat" with
    | none => .error .typeErr
    | some slat =>
      match parse slat with
      | none => .error .valueErr
      | some la =>
        match pt.attr "lon" with
        | none => .error .typeErr
        | some slon =>
          match parse slon with
          | none => .error .valueErr
          | some lo =>
            match findChild "ele" pt with
            | none => .error .attrErr
            | some eleEl =>
              match eleEl.text with
              | none => .error .typeErr
              | some sele =>
                match parse sele with
                | none => .error .valueErr
                | some el =>
                  match findChild "time" pt with
                  | none => .error .attrErr
                  | some tEl =>
                    if (r.lat, r.lon) = (la, lo) then
                      if r.elevation = el then
                        match convert_to_iso8601 r.time with
                        | .error e => .error (.timeFormat e)
                        | .ok iso =>
                          if some iso = tEl.text then checkPts parse rest
                          else .error (.mismatch "Mismatch in time.")
                      else .error (.mismatch "Mismatch in elevation.")
                    else .error (.mismatch "Mismatch in coordinates.")

/-- `validate_conversion(srt_data, gpx_file)`: re-find all track points,
assert the count, then check point for point. -/
def validate {F : Type} [DecidableEq F] (parse : String → Option F)
    (data : List (GpsRecord F)) (doc : Element) : Except VErr Unit :=
  if data.length = (findall "trkpt" doc).length then
    checkPts parse (data.zip (findall "trkpt" doc))
  else .error (.mismatch "Mismatch in number of points.")

/-- Parsed lat/lon pair of a track point, as the validator reads it. -/
def latlonParsed {F : Type} (parse : String → Option F) (pt : Element) : Option (F × F) :=
  match pt.attr "lat", pt.attr "lon" with
  | some a, some b =>
    match parse a, parse b with
    | some x, some y => some (x, y)
    | _, _ => none
  | _, _ => none

/-- Parsed elevation of a track point, as the validator reads it. -/
def eleParsed {F : Type} (parse : String → Option F) (pt : Element) : Option F :=
  ((findChild "ele" pt).bind Element.text).bind parse

/-- The `time` child's text of a track point. -/
def timeTextOf (pt : Element) : Option String :=
  (findChild "time" pt).bind Element.text

/-! ## Output file naming (`main`) -/

/-- `basename.replace(".srt", ".gpx")`: Python's `str.replace` substitutes
every (non-overlapping, left-to-right) occurrence. -/
def pyReplaceSrt : List Char → List Char
  | [] => []
  | '.' :: 's' :: 'r' :: 't' :: cs => '.' :: 'g' :: 'p' :: 'x' :: pyReplaceSrt cs
  | c :: cs => c :: pyReplaceSrt cs

/-- `os.path.basename`: the part after the last `'/'`. -/
def basenameChars (l : List Char) : List Char :=
  (l.reverse.takeWhile (fun c => c != '/')).reverse

/-- `os.path.join(dir, name)` in the common case. -/
def joinPath (dir name : String) : String :=
  if dir = "" then name else dir ++ "/" ++ name

/-- The output path derivation from `main`:
`os.path.join(output_dir, os.path.basename(srt_file).replace(".srt", ".gpx"))`. -/
def outputPath (dir p : String) : String :=
  joinPath dir ⟨pyReplaceSrt (basenameChars p.data)⟩

instance {ε α : Type} [DecidableEq ε] [DecidableEq α] : DecidableEq (Except ε α)
  | .error e, .error f =>
    if h : e = f then .isTrue (by rw [h]) else .isFalse (by intro hh; injection hh; contradiction)
  | .error _, .ok _ => .isFalse (by intro hh; exact Except.noConfusion hh)
  | .ok _, .error _ => .isFalse (by intro hh; exact Except.noConfusion hh)
  | .ok a, .ok b =>
    if h : a = b then .isTrue (by rw [h]) else .isFalse (by intro hh; injection hh; contradiction)

/-! # Theorems -/

/-! ## Digit and token lemmas for the strptime model -/

theorem digitChar_isDigit {n : Nat} (h : n ≤ 9) : (digitChar n).isDigit = true := by
  interval_cases n <;> decide

theorem digitVal_digitChar {n : Nat} (h : n ≤ 9) : digitVal (digitChar n) = n := by
  interval_cases n <;> decide

theorem digitChar_not_ws {n : Nat} (h : n ≤ 9) : (digitChar n).isWhitespace = false := by
  interval_cases n <;> decide

theorem wsPlus_space {l : List Char}
    (h : ∀ c, l.head? = some c → c.isWhitespace = false) :
    wsPlus (' ' :: l) = some l := by
  cases l with
  | nil => rfl
  | cons c cs =>
    have hc := h c rfl
    simp [wsPlus, skipWs, hc]

theorem expectC_cons (c : Char) (l : List Char) : expectC c (c :: l) = some l := by
  simp [expectC]

theorem head_natChars_append {d : Nat} (hd : d ≤ 99) (r : List Char) :
    ∃ k, k ≤ 9 ∧ (natChars d ++ r).head? = some (digitChar k) := by
  by_cases h : d < 10
  · exact ⟨d, by omega, by simp [natChars, h]⟩
  · exact ⟨d / 10, by omega, by simp [natChars, h]⟩

theorem head_pad4_append (y : Nat) (r : List Char) :
    (pad4 y ++ r).head? = some (digitChar (y / 1000)) := by
  simp [pad4]

theorem parseMonth_canonical {m : Nat} (h1 : 1 ≤ m) (h2 : m ≤ 12) (r : List Char) :
    parseMonthFrom ((monthAbbrev m).data ++ r) = some (m, r) := by
  interval_cases m <;> rfl

theorem parseDay_canonical {d : Nat} (h1 : 1 ≤ d) (h2 : d ≤ 31) (r : List Char) :
    parseDayFrom (natChars d ++ ',' :: r) = some (d, ',' :: r) := by
  interval_cases d <;> rfl

theorem parseYear_canonical {y : Nat} (h : y ≤ 9999) (r : List Char) :
    parseYearFrom (pad4 y ++ r) = some (y, r) := by
  have h1 : y / 1000 ≤ 9 := by omega
  have h2 : y / 100 % 10 ≤ 9 := by omega
  have h3 : y / 10 % 10 ≤ 9 := by omega
  have h4 : y % 10 ≤ 9 := by omega
  simp [pad4, parseYearFrom, digitChar_isDigit h1, digitChar_isDigit h2,
        digitChar_isDigit h3, digitChar_isDigit h4, digitVal_digitChar h1,
        digitVal_digitChar h2, digitVal_digitChar h3, digitVal_digitChar h4]
  omega

theorem parseHour_canonical {h : Nat} (h1 : 1 ≤ h) (h2 : h ≤ 12) (r : List Char) :
    parseHourFrom (natChars h ++ ':' :: r) = some (h, ':' :: r) := by
  interval_cases h <;> rfl

theorem parseMin_canonical {mi : Nat} (h : mi ≤ 59) (r : List Char) :
    parseMinFrom (pad2 mi ++ ':' :: r) = some (mi, ':' :: r) := by
  interval_cases mi <;> rfl

theorem parseSec_canonical {s : Nat} (h : s ≤ 59) (r : List Char) :
    parseSecFrom (pad2 s ++ ' ' :: r) = some (s, ' ' :: r) := by
  interval_cases s <;> rfl

theorem wsPlus_natChars {n : Nat} (hn : n ≤ 99) (r : List Char) :
    wsPlus (' ' :: (natChars n ++ r)) = some (natChars n ++ r) := by
  obtain ⟨k, hk, hh⟩ := head_natChars_append hn r
  refine wsPlus_space (fun c hc => ?_)
  rw [hh] at hc
  injection hc with hc
  subst hc
  exact digitChar_not_ws hk

theorem wsPlus_pad4 {y : Nat} (hy : y ≤ 9999) (r : List Char) :
    wsPlus (' ' :: (pad4 y ++ r)) = some (pad4 y ++ r) := by
  refine wsPlus_space (fun c hc => ?_)
  rw [head_pad4_append] at hc
  injection hc with hc
  subst hc
  exact digitChar_not_ws (by omega)

theorem wsPlus_ampm (pm : Bool) :
    wsPlus (' ' :: (if pm then ['P', 'M'] else ['A', 'M'])) =
      some (if pm then ['P', 'M'] else ['A', 'M']) := by
  cases pm <;> rfl

theorem parseAmPm_if (pm : Bool) :
    parseAmPm (if pm then ['P', 'M'] else ['A', 'M']) = some (pm, []) := by
  cases pm <;> rfl

/-- The strptime model accepts every canonical instance of the spec's
pattern whose fields lie in the regex's ranges, and returns its fields. -/
theorem strptime_mkInput {m d y h mi s : Nat} {pm : Bool}
    (hm1 : 1 ≤ m) (hm2 : m ≤ 12) (hd1 : 1 ≤ d) (hd2 : d ≤ 31) (hy : y ≤ 9999)
    (hh1 : 1 ≤ h) (hh2 : h ≤ 12) (hmi : mi ≤ 59) (hs : s ≤ 59) :
    strptimeUS (mkInputChars m d y h mi s pm) =
      some ⟨y, m, d, hour24 h pm, mi, s⟩ := by
  unfold mkInputChars strptimeUS
  rw [parseMonth_canonical hm1 hm2]
  dsimp only [Bind.bind, Option.bind]
  rw [wsPlus_natChars (show d ≤ 99 by omega)]
  dsimp only [Bind.bind, Option.bind]
  rw [parseDay_canonical hd1 hd2]
  dsimp only [Bind.bind, Option.bind]
  rw [expectC_cons]
  dsimp only [Bind.bind, Option.bind]
  rw [wsPlus_pad4 hy]
  dsimp only [Bind.bind, Option.bind]
  rw [parseYear_canonical hy]
  dsimp only [Bind.bind, Option.bind]
  rw [wsPlus_natChars (show h ≤ 99 by omega)]
  dsimp only [Bind.bind, Option.bind]
  rw [parseHour_canonical hh1 hh2]
  dsimp only [Bind.bind, Option.bind]
  rw [expectC_cons]
  dsimp only [Bind.bind, Option.bind]
  rw [parseMin_canonical hmi]
  dsimp only [Bind.bind, Option.bind]
  rw [expectC_cons]
  dsimp only [Bind.bind, Option.bind]
  rw [parseSec_canonical hs]
  dsimp only [Bind.bind, Option.bind]
  rw [wsPlus_ampm]
  dsimp only [Bind.bind, Option.bind]
  rw [parseAmPm_if]
  dsimp only [Bind.bind, Option.bind]
  rfl

theorem daysInMonth_le_31 (y m : Nat) : daysInMonth y m ≤ 31 := by
  unfold daysInMonth
  split_ifs <;> omega

theorem convert_eq_of_strptime {str : String} {t : Dt}
    (h : strptimeUS str.data = some t) :
    convert_to_iso8601 str =
      if validDt t then .ok (isoString t)
      else .error ("Invalid time format: " ++ str) := by
  unfold convert_to_iso8601
  rw [h]

theorem convert_eq_of_strptime_none {str : String}
    (h : strptimeUS str.data = none) :
    convert_to_iso8601 str = .error ("Invalid time format: " ++ str) := by
  unfold convert_to_iso8601
  rw [h]

theorem hour24_le {h : Nat} (hh : h ≤ 12) (pm : Bool) : hour24 h pm ≤ 23 := by
  unfold hour24
  split_ifs <;> omega

/-! ## C3 — normalization of pattern-matching inputs -/

/-- C3: for every input string matching the spec's timestamp pattern
(canonical rendering, fields in range, calendar-valid date), `normalize`
returns the corresponding UTC-suffixed `YYYY-MM-DDTHH:MM:SSZ` string with no
timezone shift: year, month, day, minute and second are carried over
unchanged and the hour is only converted from the 12-hour clock. -/
theorem c3_normalize_pattern {m d y h mi s : Nat} {pm : Bool}
    (hm1 : 1 ≤ m) (hm2 : m ≤ 12) (hy1 : 1 ≤ y) (hy2 : y ≤ 9999)
    (hd1 : 1 ≤ d) (hd2 : d ≤ daysInMonth y m)
    (hh1 : 1 ≤ h) (hh2 : h ≤ 12) (hmi : mi ≤ 59) (hs : s ≤ 59) :
    convert_to_iso8601 (mkInput m d y h mi s pm) =
      .ok (isoString ⟨y, m, d, hour24 h pm, mi, s⟩) := by
  have hd31 : d ≤ 31 := le_trans hd2 (daysInMonth_le_31 y m)
  have hdata : (mkInput m d y h mi s pm).data = mkInputChars m d y h mi s pm := rfl
  rw [convert_eq_of_strptime
    (hdata ▸ strptime_mkInput hm1 hm2 hd1 hd31 hy2 hh1 hh2 hmi hs)]
  have hv : validDt ⟨y, m, d, hour24 h pm, mi, s⟩ = true := by
    simp only [validDt, decide_eq_true_eq, Bool.decide_and, Bool.and_eq_true]
    exact ⟨by simpa using hy1, by simpa using hy2, by simpa using hm1, by simpa using hm2,
           by simpa using hd1, by simpa using hd2,
           by simpa using hour24_le hh2 pm, by simpa using hmi, by simpa using hs⟩
  rw [if_pos hv]

/-- Witness for C3 at the spec's own example:
`normalize("Jul 4, 2024 6:13:17 PM") = "2024-07-04T18:13:17Z"`. -/
theorem c3_normalize_pattern_witness :
    mkInput 7 4 2024 6 13 17 true = "Jul 4, 2024 6:13:17 PM" ∧
    convert_to_iso8601 "Jul 4, 2024 6:13:17 PM" = .ok "2024-07-04T18:13:17Z" := by
  constructor
  · rfl
  · have h := @c3_normalize_pattern 7 4 2024 6 13 17 true
      (by decide) (by decide) (by decide) (by decide) (by decide)
      (by decide) (by decide) (by decide) (by decide) (by decide)
    rw [show mkInput 7 4 2024 6 13 17 true = "Jul 4, 2024 6:13:17 PM" from rfl] at h
    rw [h]
    rfl

/-! ## C4 — when normalization raises -/

/-- C4 counterexample: `"Feb 30, 2024 6:13:17 PM"` matches the spec's
textual pattern (it is the canonical rendering of month 2, day 30 ≤ 31,
year 2024, 6:13:17 PM), yet `normalize` raises a `FormatError`, because the
`datetime` constructor rejects the calendar-invalid day. -/
theorem c4_cex :
    mkInput 2 30 2024 6 13 17 true = "Feb 30, 2024 6:13:17 PM" ∧
    convert_to_iso8601 "Feb 30, 2024 6:13:17 PM" =
      .error "Invalid time format: Feb 30, 2024 6:13:17 PM" := by
  constructor
  · rfl
  · decide

/-- C4 (amended): on a pattern-matching input, `normalize` returns normally
if and only if the denoted date is calendar-valid (year ≥ 1 and the day fits
the month's length) — so it raises exactly on non-matching inputs and on
pattern-matching inputs denoting impossible dates; and whenever it returns
normally the input was accepted by the strptime format with in-range,
calendar-valid fields. -/
theorem c4_error_iff :
    (∀ m d y h mi s : Nat, ∀ pm : Bool,
      1 ≤ m → m ≤ 12 → 1 ≤ d → d ≤ 31 → y ≤ 9999 →
      1 ≤ h → h ≤ 12 → mi ≤ 59 → s ≤ 59 →
      (isOkE (convert_to_iso8601 (mkInput m d y h mi s pm)) = true ↔
        (1 ≤ y ∧ d ≤ daysInMonth y m))) ∧
    (∀ str : String, isOkE (convert_to_iso8601 str) = true →
      ∃ t, strptimeUS str.data = some t ∧ validDt t = true) := by
  constructor
  · intro m d y h mi s pm hm1 hm2 hd1 hd2 hy hh1 hh2 hmi hs
    have hdata : (mkInput m d y h mi s pm).data = mkInputChars m d y h mi s pm := rfl
    rw [convert_eq_of_strptime
      (hdata ▸ strptime_mkInput hm1 hm2 hd1 hd2 hy hh1 hh2 hmi hs)]
    split_ifs with hv
    · simp only [isOkE, true_iff]
      simp only [validDt, decide_eq_true_eq, Bool.decide_and, Bool.and_eq_true] at hv
      refine ⟨by simpa using hv.1, by simpa using hv.2.2.2.2.2.1⟩
    · simp only [isOkE, Bool.false_eq_true, false_iff]
      intro hcon
      apply hv
      simp only [validDt, decide_eq_true_eq, Bool.decide_and, Bool.and_eq_true]
      exact ⟨by simpa using hcon.1, by simpa using hy, by simpa using hm1, by simpa using hm2,
             by simpa using hd1, by simpa using hcon.2,
             by simpa using hour24_le hh2 pm, by simpa using hmi, by simpa using hs⟩
  · intro str hok
    cases hstr : strptimeUS str.data with
    | none =>
      rw [convert_eq_of_strptime_none hstr] at hok
      simp [isOkE] at hok
    | some t =>
      rw [convert_eq_of_strptime hstr] at hok
      by_cases hv : validDt t = true
      · exact ⟨t, rfl, hv⟩
      · rw [if_neg hv] at hok; simp [isOkE] at hok

/-- Witness for C4 (amended): Feb 29 is accepted in the leap year 2024 and
rejected in 2023. -/
theorem c4_error_iff_witness :
    isOkE (convert_to_iso8601 (mkInput 2 29 2024 6 13 17 true)) = true ∧
    isOkE (convert_to_iso8601 (mkInput 2 29 2023 6 13 17 true)) = false := by
  constructor
  · exact (c4_error_iff.1 2 29 2024 6 13 17 true (by decide) (by decide) (by decide)
      (by decide) (by decide) (by decide) (by decide) (by decide) (by decide)).mpr
      (by decide)
  · have h := c4_error_iff.1 2 29 2023 6 13 17 true (by decide) (by decide) (by decide)
      (by decide) (by decide) (by decide) (by decide) (by decide) (by decide)
    have h2 : ¬(1 ≤ 2023 ∧ 29 ≤ daysInMonth 2023 2) := by decide
    cases hb : isOkE (convert_to_iso8601 (mkInput 2 29 2023 6 13 17 true)) with
    | false => rfl
    | true => exact absurd (h.mp hb) h2

/-! ## Lemmas about stripping, splitting and the block scan -/

theorem mem_stripChars {c : Char} {l : List Char} (h : c ∈ stripChars l) : c ∈ l := by
  unfold stripChars at h
  rw [List.mem_reverse] at h
  have h1 : c ∈ (l.dropWhile Char.isWhitespace).reverse :=
    (List.dropWhile_sublist _).mem h
  rw [List.mem_reverse] at h1
  exact (List.dropWhile_sublist _).mem h1

theorem containsComma_cons (c : Char) (cs : List Char) :
    containsComma (c :: cs) = ((c == ',') || containsComma cs) := by
  simp [containsComma]

theorem containsComma_stripChars {l : List Char} (h : containsComma l = false) :
    containsComma (stripChars l) = false := by
  cases hb : containsComma (stripChars l) with
  | false => rfl
  | true =>
    exfalso
    unfold containsComma at hb h
    rw [List.any_eq_true] at hb
    obtain ⟨c, hc, hceq⟩ := hb
    have hmem : c ∈ l := mem_stripChars hc
    rw [List.any_eq_false] at h
    exact h c hmem hceq

theorem splitComma_no_comma {l : List Char} (h : containsComma l = false) :
    splitComma l = [l] := by
  induction l with
  | nil => rfl
  | cons c cs ih =>
    rw [containsComma_cons, Bool.or_eq_false_iff] at h
    have hc : ¬c = ',' := by simpa using h.1
    simp [splitComma, ih h.2, hc]

theorem splitComma_append {a : List Char} (r : List Char)
    (h : containsComma a = false) :
    splitComma (a ++ ',' :: r) = a :: splitComma r := by
  induction a with
  | nil => simp [splitComma]
  | cons c cs ih =>
    rw [containsComma_cons, Bool.or_eq_false_iff] at h
    have hc : ¬c = ',' := by simpa using h.1
    simp [splitComma, ih h.2, hc]

/-! ## C5 — no-comma payloads are skipped without error -/

/-- C5: a caption block whose location payload contains no comma produces no
record and raises no error: the decoder yields nothing for it and a file
consisting of that block parses to zero entries with one counted skip. -/
theorem c5_no_comma_skipped (idx tl ts loc : String)
    (harrow : containsArrow tl.data = true)
    (h0 : containsArrow idx.data = false)
    (h2 : containsArrow ts.data = false)
    (h3 : containsArrow loc.data = false)
    (h4 : containsComma loc.data = false) :
    decodeBlock (stripChars ts.data) (stripChars loc.data) = none ∧
    parse_srt [idx, tl, ts, loc] = .ok ([], 1) := by
  have hdec : decodeBlock (stripChars ts.data) (stripChars loc.data) = none := by
    have hs := containsComma_stripChars h4
    simp [decodeBlock, hs]
  refine ⟨hdec, ?_⟩
  simp [parse_srt, parseGo, h0, harrow, h2, h3, hdec]

/-- Witness for C5: the spec's Scenario 3 payload `"N 45.2 W"`. -/
theorem c5_no_comma_skipped_witness :
    decodeBlock (stripChars "Jul 4, 2024 6:13:17 PM".data)
      (stripChars "N 45.2 W".data) = none ∧
    parse_srt ["1", "00:00:00,000 --> 00:00:01,000",
      "Jul 4, 2024 6:13:17 PM", "N 45.2 W"] = .ok ([], 1) :=
  c5_no_comma_skipped "1" "00:00:00,000 --> 00:00:01,000"
    "Jul 4, 2024 6:13:17 PM" "N 45.2 W"
    (by decide) (by decide) (by decide) (by decide) (by decide)

/-! ## Evaluation lemmas for the float model -/

theorem isDigit_ne {c d : Char} (h : c.isDigit = true) (hd : d.isDigit = false) : c ≠ d := by
  intro e
  subst e
  rw [h] at hd
  exact Bool.noConfusion hd

theorem isDigit_not_ws {c : Char} (h : c.isDigit = true) : c.isWhitespace = false := by
  cases hw : c.isWhitespace with
  | false => rfl
  | true =>
    exfalso
    have h4 : ((c = ' ' ∨ c = '\t') ∨ c = '\x0d') ∨ c = '\n' := by
      simpa [Char.isWhitespace] using hw
    rcases h4 with ((rfl | rfl) | rfl) | rfl <;> exact absurd h (by decide)

theorem takeWhile_all_true {p : Char → Bool} {l : List Char}
    (h : ∀ c ∈ l, p c = true) : l.takeWhile p = l := by
  induction l with
  | nil => rfl
  | cons c cs ih =>
    rw [List.takeWhile_cons, if_pos (h c (by simp)), ih (fun x hx => h x (by simp [hx]))]

theorem dropWhile_all_true {p : Char → Bool} {l : List Char}
    (h : ∀ c ∈ l, p c = true) : l.dropWhile p = [] := by
  induction l with
  | nil => rfl
  | cons c cs ih =>
    rw [List.dropWhile_cons, if_pos (h c (by simp)), ih (fun x hx => h x (by simp [hx]))]

theorem takeWhile_append_stop {p : Char → Bool} {a : List Char} {s : Char} {r : List Char}
    (hall : ∀ c ∈ a, p c = true) (hs : p s = false) :
    ((a ++ s :: r).takeWhile p) = a := by
  induction a with
  | nil => simp [List.takeWhile_cons, hs]
  | cons c cs ih =>
    rw [List.cons_append, List.takeWhile_cons, if_pos (hall c (by simp)),
        ih (fun x hx => hall x (by simp [hx]))]

theorem dropWhile_append_stop {p : Char → Bool} {a : List Char} {s : Char} {r : List Char}
    (hall : ∀ c ∈ a, p c = true) (hs : p s = false) :
    ((a ++ s :: r).dropWhile p) = s :: r := by
  induction a with
  | nil => simp [List.dropWhile_cons, hs]
  | cons c cs ih =>
    rw [List.cons_append, List.dropWhile_cons, if_pos (hall c (by simp)),
        ih (fun x hx => hall x (by simp [hx]))]

theorem dropWhile_all_false {p : Char → Bool} {l : List Char}
    (h : ∀ c ∈ l, p c = false) : l.dropWhile p = l := by
  cases l with
  | nil => rfl
  | cons c cs => rw [List.dropWhile_cons, if_neg (by simp [h c (by simp)])]

theorem stripChars_eq_self {l : List Char}
    (h : ∀ c ∈ l, c.isWhitespace = false) : stripChars l = l := by
  unfold stripChars
  rw [dropWhile_all_false h,
      dropWhile_all_false (fun c hc => h c (by simpa using hc)),
      List.reverse_reverse]

theorem pyFloatChars_digit_head {l t : List Char} {c : Char}
    (hstrip : stripChars l = c :: t) (hc : c.isDigit = true) :
    pyFloatChars l = pyFloatVal 1 (c :: t) := by
  unfold pyFloatChars
  rw [hstrip]
  split
  · next heq => injection heq with h1 _; exact absurd h1.symm (isDigit_ne hc (by decide)).symm
  · next heq => injection heq with h1 _; exact absurd h1.symm (isDigit_ne hc (by decide)).symm
  · rfl

theorem pyFloatVal_digits {t : List Char} (h0 : t ≠ [])
    (hall : ∀ c ∈ t, c.isDigit = true) :
    pyFloatVal 1 t = some ((digitsToNat t : ℚ)) := by
  unfold pyFloatVal
  rw [dropWhile_all_true hall, takeWhile_all_true hall]
  simp [List.isEmpty_iff, h0]

theorem pyFloatVal_point {ip fp : List Char} (h0 : ip ≠ [])
    (hip : ∀ c ∈ ip, c.isDigit = true) (hfp : ∀ c ∈ fp, c.isDigit = true) :
    pyFloatVal 1 (ip ++ '.' :: fp) =
      some ((digitsToNat ip : ℚ) + (digitsToNat fp : ℚ) / (10 : ℚ) ^ fp.length) := by
  unfold pyFloatVal
  rw [dropWhile_append_stop hip (by decide), takeWhile_append_stop hip (by decide)]
  have h1 : ip.isEmpty = false := by
    cases ip with
    | nil => exact absurd rfl h0
    | cons c cs => rfl
  have h2 : fp.all Char.isDigit = true := List.all_eq_true.mpr hfp
  simp [h1, h2]

theorem pyFloatChars_digits {l : List Char} (h0 : l ≠ [])
    (hall : ∀ c ∈ l, c.isDigit = true) :
    pyFloatChars l = some ((digitsToNat l : ℚ)) := by
  have hs : stripChars l = l := stripChars_eq_self (fun c hc => isDigit_not_ws (hall c hc))
  obtain ⟨c, t, rfl⟩ : ∃ c t, l = c :: t := by
    cases l with
    | nil => exact absurd rfl h0
    | cons c t => exact ⟨c, t, rfl⟩
  rw [pyFloatChars_digit_head hs (hall c (by simp))]
  exact pyFloatVal_digits (by simp) hall

theorem pyFloatChars_point {ip fp : List Char} (h0 : ip ≠ [])
    (hip : ∀ c ∈ ip, c.isDigit = true) (hfp : ∀ c ∈ fp, c.isDigit = true) :
    pyFloatChars (ip ++ '.' :: fp) =
      some ((digitsToNat ip : ℚ) + (digitsToNat fp : ℚ) / (10 : ℚ) ^ fp.length) := by
  have hs : stripChars (ip ++ '.' :: fp) = ip ++ '.' :: fp := by
    refine stripChars_eq_self (fun c hc => ?_)
    rcases List.mem_append.mp hc with h | h
    · exact isDigit_not_ws (hip c h)
    · rcases List.mem_cons.mp h with rfl | h
      · rfl
      · exact isDigit_not_ws (hfp c h)
  obtain ⟨c, t, heq⟩ : ∃ c t, ip = c :: t := by
    cases ip with
    | nil => exact absurd rfl h0
    | cons c t => exact ⟨c, t, rfl⟩
  subst heq
  rw [List.cons_append] at hs
  rw [List.cons_append, pyFloatChars_digit_head hs (hip c (by simp)), ← List.cons_append]
  exact pyFloatVal_point (by simp) hip hfp

/-! ## C6 — comma payloads: field parsing and the "m" stripping -/

theorem decodeBlock_fields (t a b c : List Char)
    (ha : containsComma a = false) (hb : containsComma b = false)
    (hc : containsComma c = false) :
    decodeBlock t (a ++ ',' :: (b ++ ',' :: c)) =
      match pyFloatChars a, pyFloatChars b, pyFloatChars (elevClean c) with
      | some la, some lo, some el => some ⟨⟨t⟩, la, lo, el⟩
      | _, _, _ => none := by
  have hcontains : containsComma (a ++ ',' :: (b ++ ',' :: c)) = true := by
    unfold containsComma
    rw [List.any_eq_true]
    exact ⟨',', by simp, by simp⟩
  have hsplit : splitComma (a ++ ',' :: (b ++ ',' :: c)) = [a, b, c] := by
    rw [splitComma_append _ ha, splitComma_append _ hb, splitComma_no_comma hc]
  simp only [decodeBlock, hcontains, if_true, hsplit]
  cases pyFloatChars a <;> cases pyFloatChars b <;> cases pyFloatChars (elevClean c) <;> rfl

/-- C6 (amended): for a payload with (at least) two commas separating
comma-free fields, the decoder parses the first two fields as floats and the
third field — whitespace-stripped and with every occurrence of the character
`'m'` removed (not only a trailing unit suffix) — as the float elevation;
any parse failure yields no record. -/
theorem c6_decode_fields (t a b c : List Char)
    (ha : containsComma a = false) (hb : containsComma b = false)
    (hc : containsComma c = false) :
    decodeBlock t (a ++ ',' :: (b ++ ',' :: c)) =
      match pyFloatChars a, pyFloatChars b, pyFloatChars (elevClean c) with
      | some la, some lo, some el => some ⟨⟨t⟩, la, lo, el⟩
      | _, _, _ => none :=
  decodeBlock_fields t a b c ha hb hc

/-- Witness for C6 (amended), at the spec's example payload
`"12.3,45.6,78.9m"`: elevation decodes to the float `78.9`. -/
theorem c6_decode_fields_witness :
    decodeBlock "Jul 4, 2024 6:13:17 PM".data "12.3,45.6,78.9m".data =
      some ⟨"Jul 4, 2024 6:13:17 PM", 123 / 10, 228 / 5, 789 / 10⟩ := by
  have h := c6_decode_fields "Jul 4, 2024 6:13:17 PM".data
    "12.3".data "45.6".data "78.9m".data (by decide) (by decide) (by decide)
  rw [show ("12.3".data ++ ',' :: ("45.6".data ++ ',' :: "78.9m".data)) =
    "12.3,45.6,78.9m".data by decide] at h
  rw [h,
    show "12.3".data = ['1', '2'] ++ '.' :: ['3'] by decide,
    pyFloatChars_point (by decide) (by decide) (by decide),
    show "45.6".data = ['4', '5'] ++ '.' :: ['6'] by decide,
    pyFloatChars_point (by decide) (by decide) (by decide),
    show elevClean "78.9m".data = ['7', '8'] ++ '.' :: ['9'] by decide,
    pyFloatChars_point (by decide) (by decide) (by decide),
    show digitsToNat ['1', '2'] = 12 by decide, show digitsToNat ['3'] = 3 by decide,
    show digitsToNat ['4', '5'] = 45 by decide, show digitsToNat ['6'] = 6 by decide,
    show digitsToNat ['7', '8'] = 78 by decide, show digitsToNat ['9'] = 9 by decide]
  simp only [Option.some.injEq, GpsRecord.mk.injEq]
  norm_num

/-- C6 counterexample: the payload `"1,2,7m8"` — whose third field has no
trailing `"m"` suffix and is not a number — nevertheless produces a record
with elevation `78`, because the code removes every `'m'` before parsing;
under the claim's trailing-suffix-only reading the field would fail to parse
and the block would be Invalid. -/
theorem c6_cex :
    decodeBlock "t".data "1,2,7m8".data = some ⟨"t", 1, 2, 78⟩ ∧
    pyFloatChars (stripChars "7m8".data) = none := by
  constructor
  · have h := decodeBlock_fields "t".data "1".data "2".data "7m8".data
      (by decide) (by decide) (by decide)
    rw [show ("1".data ++ ',' :: ("2".data ++ ',' :: "7m8".data)) =
      "1,2,7m8".data by decide] at h
    rw [h,
      show "1".data = ['1'] by decide,
      pyFloatChars_digits (by decide) (by decide),
      show "2".data = ['2'] by decide,
      pyFloatChars_digits (by decide) (by decide),
      show elevClean "7m8".data = ['7', '8'] by decide,
      pyFloatChars_digits (by decide) (by decide),
      show digitsToNat ['1'] = 1 by decide, show digitsToNat ['2'] = 2 by decide,
      show digitsToNat ['7', '8'] = 78 by decide]
    simp only [Option.some.injEq, GpsRecord.mk.injEq]
    norm_num
  · decide

/-! ## C2 — a trailing timing line makes the index accesses fault -/

/-- C2 (code bug): when the last line containing `'-->'` is followed by
fewer than two further lines, `parse_srt` does not skip-and-count the
malformed block — the `lines[i + 1]` access raises an uncaught `IndexError`
(the accesses sit outside the `try`), modelled here as `.error ()`. -/
theorem c2_trailing_fault :
    parse_srt ["1", "00:00:00,000 --> 00:00:01,000"] = .error () := by
  decide

/-! ## C10 — timing lines are identified solely by the `'-->'` substring -/

theorem parseGo_cons_arrow_some {a t p : String} {r2 : List String}
    {es : List (GpsRecord ℚ)} {sk : Nat} {e : GpsRecord ℚ}
    (harr : containsArrow a.data = true)
    (hdec : decodeBlock (stripChars t.data) (stripChars p.data) = some e) :
    parseGo (a :: t :: p :: r2) es sk = parseGo (t :: p :: r2) (es ++ [e]) sk := by
  have hstep : parseGo (a :: t :: p :: r2) es sk =
      if containsArrow a.data = true then
        (match decodeBlock (stripChars t.data) (stripChars p.data) with
         | some e => parseGo (t :: p :: r2) (es ++ [e]) sk
         | none => parseGo (t :: p :: r2) es (sk + 1))
      else parseGo (t :: p :: r2) es sk := rfl
  rw [hstep, if_pos harr, hdec]

theorem parseGo_cons_arrow_none {a t p : String} {r2 : List String}
    {es : List (GpsRecord ℚ)} {sk : Nat}
    (harr : containsArrow a.data = true)
    (hdec : decodeBlock (stripChars t.data) (stripChars p.data) = none) :
    parseGo (a :: t :: p :: r2) es sk = parseGo (t :: p :: r2) es (sk + 1) := by
  have hstep : parseGo (a :: t :: p :: r2) es sk =
      if containsArrow a.data = true then
        (match decodeBlock (stripChars t.data) (stripChars p.data) with
         | some e => parseGo (t :: p :: r2) (es ++ [e]) sk
         | none => parseGo (t :: p :: r2) es (sk + 1))
      else parseGo (t :: p :: r2) es sk := rfl
  rw [hstep, if_pos harr, hdec]

theorem parseGo_cons_noarrow {a : String} {rest : List String}
    {es : List (GpsRecord ℚ)} {sk : Nat}
    (harr : containsArrow a.data = false) :
    parseGo (a :: rest) es sk = parseGo rest es sk := by
  have harr' : ¬containsArrow a.data = true := by simp [harr]
  rcases rest with _ | ⟨x, _ | ⟨y, ys⟩⟩
  · have hstep : parseGo [a] es sk =
        if containsArrow a.data = true then Except.error () else parseGo [] es sk := rfl
    rw [hstep, if_neg harr']
  · have hstep : parseGo [a, x] es sk =
        if containsArrow a.data = true then Except.error () else parseGo [x] es sk := rfl
    rw [hstep, if_neg harr']
  · have hstep : parseGo (a :: x :: y :: ys) es sk =
        if containsArrow a.data = true then
          (match decodeBlock (stripChars x.data) (stripChars y.data) with
           | some e => parseGo (x :: y :: ys) (es ++ [e]) sk
           | none => parseGo (x :: y :: ys) es (sk + 1))
        else parseGo (x :: y :: ys) es sk := rfl
    rw [hstep, if_neg harr']

theorem specBlocks_cons_arrow {a t p : String} (r2 : List String)
    (harr : containsArrow a.data = true) :
    specBlocks (a :: t :: p :: r2) = (t, p) :: specBlocks (t :: p :: r2) := by
  simp [specBlocks, harr]

theorem specBlocks_cons_noarrow {a : String} (rest : List String)
    (harr : containsArrow a.data = false) :
    specBlocks (a :: rest) = specBlocks rest := by
  simp [specBlocks, harr]

theorem parseGo_spec (lines : List String)
    (h : ∀ i, i < lines.length →
      containsArrow ((lines.getD i "").data) = true → i + 2 < lines.length) :
    ∀ (es : List (GpsRecord ℚ)) (sk : Nat),
    parseGo lines es sk = .ok
      (es ++ (specBlocks lines).filterMap
        (fun b => decodeBlock (stripChars b.1.data) (stripChars b.2.data)),
       sk + (specBlocks lines).countP
        (fun b => (decodeBlock (stripChars b.1.data) (stripChars b.2.data)).isNone)) := by
  induction lines with
  | nil => intro es sk; simp [parseGo, specBlocks]
  | cons a rest ih =>
    intro es sk
    have hrest : ∀ i, i < rest.length →
        containsArrow ((rest.getD i "").data) = true → i + 2 < rest.length := by
      intro i hi harr
      have hstep := h (i + 1) (by rw [List.length_cons]; omega) (by simpa using harr)
      rw [List.length_cons] at hstep
      omega
    by_cases harr : containsArrow a.data = true
    · have hlen : 2 ≤ rest.length := by
        have hstep := h 0 (by rw [List.length_cons]; omega) (by simpa using harr)
        rw [List.length_cons] at hstep
        omega
      obtain ⟨t, p, r2, rfl⟩ : ∃ t p r2, rest = t :: p :: r2 := by
        cases rest with
        | nil => simp at hlen
        | cons x xs =>
          cases xs with
          | nil => simp at hlen
          | cons y ys => exact ⟨x, y, ys, rfl⟩
      cases hdec : decodeBlock (stripChars t.data) (stripChars p.data) with
      | some e =>
        rw [parseGo_cons_arrow_some harr hdec, ih hrest,
            specBlocks_cons_arrow r2 harr]
        simp [hdec, List.filterMap_cons, List.countP_cons]
      | none =>
        rw [parseGo_cons_arrow_none harr hdec, ih hrest,
            specBlocks_cons_arrow r2 harr]
        simp [hdec, List.filterMap_cons, List.countP_cons]
        omega
    · have harr' : containsArrow a.data = false := by simpa using harr
      rw [parseGo_cons_noarrow harr', ih hrest, specBlocks_cons_noarrow rest harr']

/-- C10: the block extractor identifies a timing line solely by the
substring `'-->'` occurring anywhere in the line — with no check of the
preceding block-index line — and consumes the two lines after it as
timestamp and location payload: whenever every `'-->'` line has two lines
after it, `parse_srt` returns exactly the blocks listed by `specBlocks`
(one candidate per `'-->'` line, decoded from the next two lines), in order,
with the failed decodes counted as skipped. -/
theorem c10_arrow_only (lines : List String)
    (h : ∀ i, i < lines.length →
      containsArrow ((lines.getD i "").data) = true → i + 2 < lines.length) :
    parse_srt lines = .ok
      ((specBlocks lines).filterMap
        (fun b => decodeBlock (stripChars b.1.data) (stripChars b.2.data)),
       (specBlocks lines).countP
        (fun b => (decodeBlock (stripChars b.1.data) (stripChars b.2.data)).isNone)) := by
  have hmain := parseGo_spec lines h [] 0
  simpa [parse_srt] using hmain

/-- Witness for C10: the payload line `"payload, --> gotcha"` of the first
block itself contains `'-->'`, so it too is treated as a timing line, and
the two lines after it — a timestamp and a coordinate payload — become a
(spurious) record. -/
theorem c10_arrow_only_witness :
    parse_srt ["1", "00:00 --> 00:01", "ts", "payload, --> gotcha",
      "Jul 4, 2024 6:13:17 PM", "7.5,8.5,9.5m"] =
      .ok ([⟨"Jul 4, 2024 6:13:17 PM", 15 / 2, 17 / 2, 19 / 2⟩], 1) := by
  have h := c10_arrow_only ["1", "00:00 --> 00:01", "ts", "payload, --> gotcha",
    "Jul 4, 2024 6:13:17 PM", "7.5,8.5,9.5m"] (by decide)
  have h1 : decodeBlock (stripChars "ts".data)
      (stripChars "payload, --> gotcha".data) = none := by decide
  have h2 : decodeBlock (stripChars "Jul 4, 2024 6:13:17 PM".data)
      (stripChars "7.5,8.5,9.5m".data) =
      some ⟨"Jul 4, 2024 6:13:17 PM", 15 / 2, 17 / 2, 19 / 2⟩ := by
    rw [show stripChars "Jul 4, 2024 6:13:17 PM".data =
          "Jul 4, 2024 6:13:17 PM".data by decide,
        show stripChars "7.5,8.5,9.5m".data = "7.5,8.5,9.5m".data by decide]
    have hd := decodeBlock_fields "Jul 4, 2024 6:13:17 PM".data
      "7.5".data "8.5".data "9.5m".data (by decide) (by decide) (by decide)
    rw [show ("7.5".data ++ ',' :: ("8.5".data ++ ',' :: "9.5m".data)) =
      "7.5,8.5,9.5m".data by decide] at hd
    rw [hd,
      show "7.5".data = ['7'] ++ '.' :: ['5'] by decide,
      pyFloatChars_point (by decide) (by decide) (by decide),
      show "8.5".data = ['8'] ++ '.' :: ['5'] by decide,
      pyFloatChars_point (by decide) (by decide) (by decide),
      show elevClean "9.5m".data = ['9'] ++ '.' :: ['5'] by decide,
      pyFloatChars_point (by decide) (by decide) (by decide),
      show digitsToNat ['7'] = 7 by decide, show digitsToNat ['8'] = 8 by decide,
      show digitsToNat ['9'] = 9 by decide, show digitsToNat ['5'] = 5 by decide]
    simp only [Option.some.injEq, GpsRecord.mk.injEq]
    norm_num
  rw [h,
    show specBlocks ["1", "00:00 --> 00:01", "ts", "payload, --> gotcha",
      "Jul 4, 2024 6:13:17 PM", "7.5,8.5,9.5m"] =
      [("ts", "payload, --> gotcha"),
       ("Jul 4, 2024 6:13:17 PM", "7.5,8.5,9.5m")] by decide]
  simp [h1, h2, List.filterMap_cons, List.countP_cons]

/-! ## Lemmas about the serializer's output -/

theorem buildPts_ok_of_times {F : Type} (render : F → String) :
    ∀ (data : List (GpsRecord F)),
    (∀ r ∈ data, ∃ iso, convert_to_iso8601 r.time = .ok iso) →
    ∃ pts, buildPts render data = .ok pts := by
  intro data
  induction data with
  | nil => exact fun _ => ⟨[], rfl⟩
  | cons r rs ih =>
    intro ht
    obtain ⟨iso, hiso⟩ := ht r (by simp)
    obtain ⟨pts', hpts'⟩ := ih (fun x hx => ht x (by simp [hx]))
    exact ⟨trkptEl render r iso :: pts', by simp only [buildPts, hiso, hpts']⟩

theorem buildPts_length {F : Type} {render : F → String} :
    ∀ {data : List (GpsRecord F)} {pts : List Element},
    buildPts render data = .ok pts → pts.length = data.length := by
  intro data
  induction data with
  | nil =>
    intro pts h
    simp only [buildPts] at h
    injection h with h
    subst h
    rfl
  | cons r rs ih =>
    intro pts h
    simp only [buildPts] at h
    cases hconv : convert_to_iso8601 r.time with
    | error e => rw [hconv] at h; simp at h
    | ok iso =>
      rw [hconv] at h
      cases hrec : buildPts render rs with
      | error e => rw [hrec] at h; simp at h
      | ok pts' =>
        rw [hrec] at h
        simp at h
        rw [← h]
        simp [ih hrec]

theorem buildPts_shape {F : Type} {render : F → String} :
    ∀ {data : List (GpsRecord F)} {pts : List Element},
    buildPts render data = .ok pts →
    ∀ pt ∈ pts, ∃ r iso, pt = trkptEl render r iso := by
  intro data
  induction data with
  | nil =>
    intro pts h
    simp only [buildPts] at h
    injection h with h
    subst h
    simp
  | cons r rs ih =>
    intro pts h
    simp only [buildPts] at h
    cases hconv : convert_to_iso8601 r.time with
    | error e => rw [hconv] at h; simp at h
    | ok iso =>
      rw [hconv] at h
      cases hrec : buildPts render rs with
      | error e => rw [hrec] at h; simp at h
      | ok pts' =>
        rw [hrec] at h
        simp at h
        rw [← h]
        intro pt hpt
        rcases List.mem_cons.mp hpt with rfl | hpt
        · exact ⟨r, iso, rfl⟩
        · exact ih hrec pt hpt

theorem buildPts_zip {F : Type} {render : F → String} :
    ∀ {data : List (GpsRecord F)} {pts : List Element},
    buildPts render data = .ok pts →
    ∀ pr ∈ data.zip pts, ∃ iso, convert_to_iso8601 pr.1.time = .ok iso ∧
      pr.2 = trkptEl render pr.1 iso := by
  intro data
  induction data with
  | nil =>
    intro pts h
    simp only [buildPts] at h
    injection h with h
    subst h
    simp
  | cons r rs ih =>
    intro pts h
    simp only [buildPts] at h
    cases hconv : convert_to_iso8601 r.time with
    | error e => rw [hconv] at h; simp at h
    | ok iso =>
      rw [hconv] at h
      cases hrec : buildPts render rs with
      | error e => rw [hrec] at h; simp at h
      | ok pts' =>
        rw [hrec] at h
        simp at h
        rw [← h]
        intro pr hpr
        rw [List.zip_cons_cons] at hpr
        rcases List.mem_cons.mp hpr with rfl | hpr
        · exact ⟨iso, hconv, rfl⟩
        · exact ih hrec pr hpr

theorem findAllFrom_trkptEl {F : Type} (render : F → String) (r : GpsRecord F)
    (iso : String) :
    findAllFrom "trkpt" (trkptEl render r iso) = [trkptEl render r iso] := rfl

theorem findAllFromList_of_singletons {pts : List Element}
    (h : ∀ pt ∈ pts, findAllFrom "trkpt" pt = [pt]) :
    findAllFromList "trkpt" pts = pts := by
  induction pts with
  | nil => rfl
  | cons pt ps ih =>
    have hstep : findAllFromList "trkpt" (pt :: ps) =
        findAllFrom "trkpt" pt ++ findAllFromList "trkpt" ps := rfl
    rw [hstep, h pt (by simp), ih (fun x hx => h x (by simp [hx])), List.singleton_append]

theorem findall_gpxRoot {now : String} {pts : List Element}
    (h : ∀ pt ∈ pts, findAllFrom "trkpt" pt = [pt]) :
    findall "trkpt" (gpxRoot now pts) = pts := by
  simp only [findall, gpxRoot, Element.children, metadataEl, findAllFromList, findAllFrom]
  simp only [List.append_nil, List.nil_append]
  rw [if_neg (by decide), if_neg (by decide), if_neg (by decide), if_neg (by decide),
      if_neg (by decide), if_neg (by decide), if_neg (by decide)]
  simp only [List.append_nil, List.nil_append]
  exact findAllFromList_of_singletons h

theorem checkPts_roundtrip {F : Type} [DecidableEq F] (render : F → String)
    (parse : String → Option F) :
    ∀ (data : List (GpsRecord F)) (pts : List Element),
    buildPts render data = .ok pts →
    (∀ r ∈ data, parse (render r.lat) = some r.lat ∧ parse (render r.lon) = some r.lon ∧
      parse (render r.elevation) = some r.elevation) →
    checkPts parse (data.zip pts) = .ok () := by
  intro data
  induction data with
  | nil =>
    intro pts h _
    simp only [buildPts] at h
    injection h with h
    subst h
    rfl
  | cons r rs ih =>
    intro pts h hrt
    simp only [buildPts] at h
    cases hconv : convert_to_iso8601 r.time with
    | error e => rw [hconv] at h; simp at h
    | ok iso =>
      rw [hconv] at h
      cases hrec : buildPts render rs with
      | error e => rw [hrec] at h; simp at h
      | ok pts' =>
        rw [hrec] at h
        simp at h
        rw [← h, List.zip_cons_cons]
        obtain ⟨hlat, hlon, hele⟩ := hrt r (by simp)
        have hattr_lat : (trkptEl render r iso).attr "lat" = some (render r.lat) := rfl
        have hattr_lon : (trkptEl render r iso).attr "lon" = some (render r.lon) := rfl
        have hfind_ele : findChild "ele" (trkptEl render r iso) =
          some (Element.mk "ele" [] (some (render r.elevation)) []) := rfl
        have hfind_time : findChild "time" (trkptEl render r iso) =
          some (Element.mk "time" [] (some iso) []) := rfl
        simp only [checkPts, hattr_lat, hattr_lon, hfind_ele, hfind_time,
          hlat, hlon, hele, Element.text, hconv, if_pos rfl]
        exact ih pts' hrec (fun x hx => hrt x (by simp [hx]))

/-! ## C1 — round-trip fidelity -/

/-- C1: round-trip fidelity.  For every ordered record sequence whose time
strings normalize and whose numeric values round-trip through their rendered
string form (`parse (render x) = some x` — the model of CPython's guarantee
`float(str(x)) == x`), validating the serialized document against the
records succeeds: the point count, per-position coordinates, elevation and
normalized time all match. -/
theorem c1_roundtrip {F : Type} [DecidableEq F] (render : F → String)
    (parse : String → Option F) (now : String) (data : List (GpsRecord F))
    (hrt : ∀ r ∈ data, parse (render r.lat) = some r.lat ∧
      parse (render r.lon) = some r.lon ∧ parse (render r.elevation) = some r.elevation)
    (ht : ∀ r ∈ data, ∃ iso, convert_to_iso8601 r.time = .ok iso) :
    ∃ doc, generate_gpx render now data = .ok doc ∧
      validate parse data doc = .ok () := by
  obtain ⟨pts, hb⟩ := buildPts_ok_of_times render data ht
  refine ⟨gpxRoot now pts, by simp only [generate_gpx, hb], ?_⟩
  have hfind : findall "trkpt" (gpxRoot now pts) = pts :=
    findall_gpxRoot (fun pt hpt => by
      obtain ⟨r, iso, rfl⟩ := buildPts_shape hb pt hpt
      exact findAllFrom_trkptEl render r iso)
  unfold validate
  rw [hfind, if_pos (buildPts_length hb).symm]
  exact checkPts_roundtrip render parse data pts hb hrt

/-- Witness for C1 at the spec's Scenario 2 record, with the numeric model
instantiated so that rendering and parsing are exact inverses. -/
theorem c1_roundtrip_witness :
    ∃ doc, generate_gpx (fun v => v) "T"
        [⟨"Jul 4, 2024 6:13:17 PM", "34.0522", "-118.2437", "71.0"⟩] = .ok doc ∧
      validate (fun v => some v)
        [⟨"Jul 4, 2024 6:13:17 PM", "34.0522", "-118.2437", "71.0"⟩] doc = .ok () :=
  c1_roundtrip (fun v => v) (fun v => some v) "T"
    [⟨"Jul 4, 2024 6:13:17 PM", "34.0522", "-118.2437", "71.0"⟩]
    (by
      intro r hr
      rw [List.mem_singleton] at hr
      subst hr
      exact ⟨rfl, rfl, rfl⟩)
    (by
      intro r hr
      rw [List.mem_singleton] at hr
      subst hr
      exact ⟨"2024-07-04T18:13:17Z", by decide⟩)

/-! ## C7 — document structure mirrors the record sequence -/

/-- C7: whenever serialization succeeds, the document contains exactly one
track element, containing exactly one segment element, containing one track
point per input record in input order: the i-th point is built from the i-th
record (lat/lon attributes, `ele` child, and `time` child from that
record's normalized time). -/
theorem c7_structure {F : Type} (render : F → String) (now : String)
    (data : List (GpsRecord F)) (doc : Element)
    (h : generate_gpx render now data = .ok doc) :
    ∃ pts, doc.children.filter (fun e => e.tag == "trk") =
        [Element.mk "trk" [] none [Element.mk "trkseg" [] none pts]] ∧
      pts.length = data.length ∧
      ∀ pr ∈ data.zip pts, ∃ iso, convert_to_iso8601 pr.1.time = .ok iso ∧
        pr.2 = trkptEl render pr.1 iso := by
  simp only [generate_gpx] at h
  cases hb : buildPts render data with
  | error e => rw [hb] at h; simp at h
  | ok pts =>
    rw [hb] at h
    simp at h
    subst h
    refine ⟨pts, ?_, buildPts_length hb, buildPts_zip hb⟩
    rfl

/-- Witness for C7 on a one-record input. -/
theorem c7_structure_witness :
    ∃ pts, (gpxRoot "T" [trkptEl (fun v => v)
        ⟨"Jul 4, 2024 6:13:17 PM", "34.0522", "-118.2437", "71.0"⟩
        "2024-07-04T18:13:17Z"]).children.filter (fun e => e.tag == "trk") =
        [Element.mk "trk" [] none [Element.mk "trkseg" [] none pts]] ∧
      pts.length = List.length
        [(⟨"Jul 4, 2024 6:13:17 PM", "34.0522", "-118.2437", "71.0"⟩ : GpsRecord String)] ∧
      ∀ pr ∈ List.zip
          [(⟨"Jul 4, 2024 6:13:17 PM", "34.0522", "-118.2437", "71.0"⟩ : GpsRecord String)]
          pts, ∃ iso, convert_to_iso8601 pr.1.time = .ok iso ∧
        pr.2 = trkptEl (fun v => v) pr.1 iso :=
  c7_structure (fun v => v) "T"
    [⟨"Jul 4, 2024 6:13:17 PM", "34.0522", "-118.2437", "71.0"⟩]
    (gpxRoot "T" [trkptEl (fun v => v)
      ⟨"Jul 4, 2024 6:13:17 PM", "34.0522", "-118.2437", "71.0"⟩
      "2024-07-04T18:13:17Z"])
    (by rfl)

/-! ## C8 — what a MismatchError identifies -/

theorem checkPts_mismatch {F : Type} [DecidableEq F] (parse : String → Option F) :
    ∀ (l : List (GpsRecord F × Element)) (msg : String),
    checkPts parse l = .error (.mismatch msg) →
    (msg = "Mismatch in coordinates." ∧ ∃ pr ∈ l,
      latlonParsed parse pr.2 ≠ some (pr.1.lat, pr.1.lon)) ∨
    (msg = "Mismatch in elevation." ∧ ∃ pr ∈ l,
      eleParsed parse pr.2 ≠ some pr.1.elevation) ∨
    (msg = "Mismatch in time." ∧ ∃ pr ∈ l,
      (convert_to_iso8601 pr.1.time).toOption ≠ timeTextOf pr.2) := by
  intro l
  induction l with
  | nil => intro msg h; exact absurd h (by simp [checkPts])
  | cons pr rest ih =>
    obtain ⟨r, pt⟩ := pr
    intro msg h
    simp only [checkPts] at h
    cases h1 : pt.attr "lat" with
    | none => simp only [h1] at h; simp at h
    | some slat =>
    simp only [h1] at h
    cases h2 : parse slat with
    | none => simp only [h2] at h; simp at h
    | some la =>
    simp only [h2] at h
    cases h3 : pt.attr "lon" with
    | none => simp only [h3] at h; simp at h
    | some slon =>
    simp only [h3] at h
    cases h4 : parse slon with
    | none => simp only [h4] at h; simp at h
    | some lo =>
    simp only [h4] at h
    cases h5 : findChild "ele" pt with
    | none => simp only [h5] at h; simp at h
    | some eleEl =>
    simp only [h5] at h
    cases h6 : eleEl.text with
    | none => simp only [h6] at h; simp at h
    | some sele =>
    simp only [h6] at h
    cases h7 : parse sele with
    | none => simp only [h7] at h; simp at h
    | some el =>
    simp only [h7] at h
    cases h8 : findChild "time" pt with
    | none => simp only [h8] at h; simp at h
    | some tEl =>
    simp only [h8] at h
    by_cases hco : (r.lat, r.lon) = (la, lo)
    · rw [if_pos hco] at h
      by_cases hel : r.elevation = el
      · rw [if_pos hel] at h
        cases hconv : convert_to_iso8601 r.time with
        | error e => simp only [hconv] at h; simp at h
        | ok iso =>
        simp only [hconv] at h
        by_cases htm : some iso = tEl.text
        · rw [if_pos htm] at h
          rcases ih msg h with ⟨hm, pr', hpr', hp⟩ | ⟨hm, pr', hpr', hp⟩ | ⟨hm, pr', hpr', hp⟩
          · exact Or.inl ⟨hm, pr', by simp [hpr'], hp⟩
          · exact Or.inr (Or.inl ⟨hm, pr', by simp [hpr'], hp⟩)
          · exact Or.inr (Or.inr ⟨hm, pr', by simp [hpr'], hp⟩)
        · rw [if_neg htm] at h
          simp only [Except.error.injEq, VErr.mismatch.injEq] at h
          refine Or.inr (Or.inr ⟨h.symm, (r, pt), by simp, ?_⟩)
          simpa [Except.toOption, timeTextOf, h8, hconv, Option.some_bind] using htm
      · rw [if_neg hel] at h
        simp only [Except.error.injEq, VErr.mismatch.injEq] at h
        refine Or.inr (Or.inl ⟨h.symm, (r, pt), by simp, ?_⟩)
        have he : eleParsed parse pt = some el := by
          simp only [eleParsed, h5, Option.some_bind, h6, h7]
        rw [he]
        intro heq
        injection heq with heq
        exact hel heq.symm
    · rw [if_neg hco] at h
      simp only [Except.error.injEq, VErr.mismatch.injEq] at h
      refine Or.inl ⟨h.symm, (r, pt), by simp, ?_⟩
      have hll : latlonParsed parse pt = some (la, lo) := by
        simp only [latlonParsed, h1, h3, h2, h4]
      rw [hll]
      intro heq
      injection heq with heq
      exact hco heq.symm

/-- C8 (amended): whenever validation fails with an `AssertionError`, its
message identifies which invariant broke — point count, coordinates,
elevation, or time — but it does not identify the position: the message is
one of four fixed strings carrying no index (validation stops at the first
violating position). -/
theorem c8_mismatch_kind {F : Type} [DecidableEq F] (parse : String → Option F)
    (data : List (GpsRecord F)) (doc : Element) (msg : String)
    (h : validate parse data doc = .error (.mismatch msg)) :
    (msg = "Mismatch in number of points." ∧
      data.length ≠ (findall "trkpt" doc).length) ∨
    (msg = "Mismatch in coordinates." ∧ ∃ pr ∈ data.zip (findall "trkpt" doc),
      latlonParsed parse pr.2 ≠ some (pr.1.lat, pr.1.lon)) ∨
    (msg = "Mismatch in elevation." ∧ ∃ pr ∈ data.zip (findall "trkpt" doc),
      eleParsed parse pr.2 ≠ some pr.1.elevation) ∨
    (msg = "Mismatch in time." ∧ ∃ pr ∈ data.zip (findall "trkpt" doc),
      (convert_to_iso8601 pr.1.time).toOption ≠ timeTextOf pr.2) := by
  unfold validate at h
  by_cases hlen : data.length = (findall "trkpt" doc).length
  · rw [if_pos hlen] at h
    rcases checkPts_mismatch parse (data.zip (findall "trkpt" doc)) msg h with
      hc | hc | hc
    · exact Or.inr (Or.inl hc)
    · exact Or.inr (Or.inr (Or.inl hc))
    · exact Or.inr (Or.inr (Or.inr hc))
  · rw [if_neg hlen] at h
    simp only [Except.error.injEq, VErr.mismatch.injEq] at h
    exact Or.inl ⟨h.symm, hlen⟩

/-- C8 counterexample: two validations that fail at different positions
(position 1 in the first, position 0 in the second) raise the very same
error value `AssertionError("Mismatch in elevation.")` — the error therefore
does not identify at which position the mismatch occurred.  (The first pair
of the first document validates cleanly on its own, locating that failure at
position 1.) -/
theorem c8_cex :
    validate (fun v => some v)
      [⟨"Jul 4, 2024 6:13:17 PM", "1", "2", "3"⟩,
       ⟨"Jul 4, 2024 6:13:17 PM", "1", "2", "4"⟩]
      (gpxRoot "T"
        [trkptEl (fun v => v) ⟨"Jul 4, 2024 6:13:17 PM", "1", "2", "3"⟩
          "2024-07-04T18:13:17Z",
         trkptEl (fun v => v) ⟨"Jul 4, 2024 6:13:17 PM", "1", "2", "5"⟩
          "2024-07-04T18:13:17Z"]) =
      .error (.mismatch "Mismatch in elevation.") ∧
    validate (fun v => some v)
      [⟨"Jul 4, 2024 6:13:17 PM", "1", "2", "3"⟩]
      (gpxRoot "T"
        [trkptEl (fun v => v) ⟨"Jul 4, 2024 6:13:17 PM", "1", "2", "3"⟩
          "2024-07-04T18:13:17Z"]) = .ok () ∧
    validate (fun v => some v)
      [⟨"Jul 4, 2024 6:13:17 PM", "1", "2", "4"⟩]
      (gpxRoot "T"
        [trkptEl (fun v => v) ⟨"Jul 4, 2024 6:13:17 PM", "1", "2", "9"⟩
          "2024-07-04T18:13:17Z"]) =
      .error (.mismatch "Mismatch in elevation.") := by
  refine ⟨by decide, by decide, by decide⟩

/-- Witness for C8 (amended), on a concrete coordinate mismatch. -/
theorem c8_mismatch_kind_witness :
    ("Mismatch in coordinates." = "Mismatch in number of points." ∧
      List.length [(⟨"Jul 4, 2024 6:13:17 PM", "1", "2", "3"⟩ : GpsRecord String)] ≠
        (findall "trkpt" (gpxRoot "T"
          [trkptEl (fun v => v) ⟨"Jul 4, 2024 6:13:17 PM", "9", "2", "3"⟩
            "2024-07-04T18:13:17Z"])).length) ∨
    ("Mismatch in coordinates." = "Mismatch in coordinates." ∧
      ∃ pr ∈ List.zip [(⟨"Jul 4, 2024 6:13:17 PM", "1", "2", "3"⟩ : GpsRecord String)]
        (findall "trkpt" (gpxRoot "T"
          [trkptEl (fun v => v) ⟨"Jul 4, 2024 6:13:17 PM", "9", "2", "3"⟩
            "2024-07-04T18:13:17Z"])),
        latlonParsed (fun v => some v) pr.2 ≠ some (pr.1.lat, pr.1.lon)) ∨
    ("Mismatch in coordinates." = "Mismatch in elevation." ∧
      ∃ pr ∈ List.zip [(⟨"Jul 4, 2024 6:13:17 PM", "1", "2", "3"⟩ : GpsRecord String)]
        (findall "trkpt" (gpxRoot "T"
          [trkptEl (fun v => v) ⟨"Jul 4, 2024 6:13:17 PM", "9", "2", "3"⟩
            "2024-07-04T18:13:17Z"])),
        eleParsed (fun v => some v) pr.2 ≠ some pr.1.elevation) ∨
    ("Mismatch in coordinates." = "Mismatch in time." ∧
      ∃ pr ∈ List.zip [(⟨"Jul 4, 2024 6:13:17 PM", "1", "2", "3"⟩ : GpsRecord String)]
        (findall "trkpt" (gpxRoot "T"
          [trkptEl (fun v => v) ⟨"Jul 4, 2024 6:13:17 PM", "9", "2", "3"⟩
            "2024-07-04T18:13:17Z"])),
        (convert_to_iso8601 pr.1.time).toOption ≠ timeTextOf pr.2) :=
  c8_mismatch_kind (fun v => some v)
    [⟨"Jul 4, 2024 6:13:17 PM", "1", "2", "3"⟩]
    (gpxRoot "T"
      [trkptEl (fun v => v) ⟨"Jul 4, 2024 6:13:17 PM", "9", "2", "3"⟩
        "2024-07-04T18:13:17Z"])
    "Mismatch in coordinates." (by decide)

/-! ## C9 — output file naming -/

theorem pyReplaceSrt_cons {c : Char} {cs : List Char} (h : c ≠ '.') :
    pyReplaceSrt (c :: cs) = c :: pyReplaceSrt cs := by
  rw [pyReplaceSrt.eq_def]
  split
  · next heq => exact absurd heq (by simp)
  · next heq =>
    exfalso
    rw [List.cons.injEq] at heq
    exact h heq.1
  · next c' cs' hne heq =>
    rw [List.cons.injEq] at heq
    rw [heq.1, heq.2]

theorem pyReplaceSrt_final {stem : List Char} (h : ∀ c ∈ stem, c ≠ '.') :
    pyReplaceSrt (stem ++ ['.', 's', 'r', 't']) = stem ++ ['.', 'g', 'p', 'x'] := by
  induction stem with
  | nil => rfl
  | cons c cs ih =>
    rw [List.cons_append, pyReplaceSrt_cons (h c (by simp)),
        ih (fun x hx => h x (by simp [hx])), List.cons_append]

theorem basenameChars_no_slash {l : List Char} (h : ∀ c ∈ l, c ≠ '/') :
    basenameChars l = l := by
  unfold basenameChars
  rw [takeWhile_all_true
        (fun c hc => by simpa using h c (List.mem_reverse.mp hc)),
      List.reverse_reverse]

/-- C9 counterexample: the output name is not obtained by replacing the
final extension.  A basename containing a second `".srt"` occurrence has
both replaced (`a.srt.srt → a.gpx.gpx`, not `a.gpx.srt → a.srt.gpx`), and a
basename with a different extension is left entirely unchanged
(`clip.txt → clip.txt`, not `clip.gpx`). -/
theorem c9_cex :
    outputPath "out" "a.srt.srt" = "out/a.gpx.gpx" ∧
    outputPath "out" "a.srt.srt" ≠ "out/a.srt.gpx" ∧
    outputPath "out" "clip.txt" = "out/clip.txt" ∧
    outputPath "out" "clip.txt" ≠ "out/clip.gpx" := by
  refine ⟨by decide, by decide, by decide, by decide⟩

/-- C9 (amended): the output file name is the input's basename with every
occurrence of the substring `".srt"` replaced by `".gpx"`, joined to
`output_dir`; in the typical case of a basename `stem.srt` whose stem
contains no dot (and no slash), this replaces exactly the final extension. -/
theorem c9_output_name (dir stem : String)
    (h : ∀ c ∈ stem.data, c ≠ '.' ∧ c ≠ '/') :
    outputPath dir (stem ++ ".srt") = joinPath dir (stem ++ ".gpx") := by
  unfold outputPath
  have hdata : (stem ++ ".srt").data = stem.data ++ ['.', 's', 'r', 't'] := rfl
  rw [hdata, basenameChars_no_slash (by
    intro c hc
    rcases List.mem_append.mp hc with h1 | h1
    · exact (h c h1).2
    · simp at h1
      rcases h1 with rfl | rfl | rfl | rfl <;> decide)]
  rw [pyReplaceSrt_final (fun c hc => (h c hc).1)]
  rfl

/-- Witness for C9 (amended): a dot-free stem. -/
theorem c9_output_name_witness :
    outputPath "out" "video.srt" = "out/video.gpx" := by
  have h := c9_output_name "out" "video" (by decide)
  rw [show ("video" ++ ".srt" : String) = "video.srt" by decide,
      show ("video" ++ ".gpx" : String) = "video.gpx" by decide] at h
  rw [h]
  decide

end SrtToGpx
